import Mathlib

/-!
Shallow embedding of the Stormpath Loopback connector
(`lib/stormpath.js`): the value model for the JavaScript objects the
connector manipulates, the pure translator helpers (`convertHrefToId`,
`convertIdToHref`, `convertAccountToJson`, `updateAccount`,
`buildWhere`) and the per-verb operation dispatch (`create`, `exists`,
`save`, `updateOrCreate`, `all`, `connect`), with remote I/O modelled
by explicit oracle functions and an operation trace.
-/

set_option autoImplicit false

namespace StormpathConnector

/-- Model of the JavaScript values the connector passes around: strings,
integer numbers, booleans, `null`, `undefined` (the result of reading a
missing property) and plain objects (association lists in key insertion
order). -/
inductive JsValue where
  | vStr (s : String)
  | vNum (n : Int)
  | vBool (b : Bool)
  | vNull
  | vUndefined
  | vObj (fields : List (String × JsValue))
  | vArr (elems : List JsValue)

/-- Model of JavaScript truthiness for `JsValue`. -/
def truthy : JsValue → Bool
  | .vStr s => !s.isEmpty
  | .vNum n => n != 0
  | .vBool b => b
  | .vNull => false
  | .vUndefined => false
  | .vObj _ => true
  | .vArr _ => true

/-- Model of JavaScript string conversion (`id.toString()`), restricted to
the value shapes the connector feeds to it (the connector never
stringifies a whole array, only array elements, so the array case is
left empty). -/
def jsToString : JsValue → String
  | .vStr s => s
  | .vNum n => toString n
  | .vBool b => if b then "true" else "false"
  | .vNull => "null"
  | .vUndefined => "undefined"
  | .vObj _ => "[object Object]"
  | .vArr _ => ""

/-- Model of `a || b` on JavaScript values: the left operand if truthy,
otherwise the right operand. -/
def jsOr (v w : JsValue) : JsValue :=
  if truthy v then v else w

/-- A JavaScript object used as a record of data fields: an association
list from property names to values, in insertion order, with distinct
keys (a JavaScript object cannot hold a key twice). -/
abbrev JsObj := List (String × JsValue)

/-- First value stored under key `k`, if any (JavaScript objects hold each
key at most once, so this is the value of the property). -/
def getVal (o : JsObj) (k : String) : Option JsValue :=
  match o with
  | [] => none
  | (k', v) :: rest => if k' = k then some v else getVal rest k

/-- Model of JavaScript property access `o[k]`: the stored value, or
`undefined` when the key is missing. -/
def jsGet (o : JsObj) (k : String) : JsValue :=
  (getVal o k).getD .vUndefined

/-- Model of JavaScript property assignment `o[k] = v`: replaces the value
in place when the key exists, otherwise appends the key at the end (the
insertion-order semantics of JavaScript objects). -/
def setKey (o : JsObj) (k : String) (v : JsValue) : JsObj :=
  match o with
  | [] => [(k, v)]
  | (k', v') :: rest => if k' = k then (k', v) :: rest else (k', v') :: setKey rest k v

/-- Source `buildWhere` (`lib/stormpath.js`): the fixed allow-list of
searchable Stormpath attributes. -/
def searchableAttrs : List String :=
  ["givenName", "middleName", "surname", "username", "email"]

/-- Test mirroring the source's `typeof cond === 'string'` check. -/
def isStrCond : JsValue → Bool
  | .vStr _ => true
  | _ => false

/-- Source `buildWhere` (`lib/stormpath.js`): builds a Stormpath query from
a Loopback `where` object.  A `null` or non-object argument yields the
empty query; otherwise each own key whose condition is a string
(`typeof cond !== 'string'` skips the key) and whose name is in
`searchableAttrs` is copied verbatim (`query[key] = cond`), and every
other key is skipped. -/
def buildWhere (whereArg : JsValue) : JsObj :=
  match whereArg with
  | .vObj fields =>
      fields.foldl
        (fun query kv =>
          if isStrCond kv.2 then
            (if kv.1 ∈ searchableAttrs then setKey query kv.1 kv.2 else query)
          else query)
        []
  | _ => []

theorem setKey_of_not_mem_keys (o : JsObj) (k : String) (v : JsValue)
    (h : k ∉ o.map Prod.fst) : setKey o k v = o ++ [(k, v)] := by
  induction o with
  | nil => rfl
  | cons p rest ih =>
      obtain ⟨k', v'⟩ := p
      simp only [List.map_cons, List.mem_cons] at h
      push_neg at h
      simp only [setKey, List.cons_append]
      rw [if_neg (Ne.symm h.1), ih h.2]

theorem buildWhere_foldl_filter (fields : List (String × JsValue)) (q : JsObj)
    (hnodup : (fields.map Prod.fst).Nodup)
    (hq : ∀ k, k ∈ q.map Prod.fst → k ∉ fields.map Prod.fst) :
    fields.foldl
        (fun query kv =>
          if isStrCond kv.2 then
            (if kv.1 ∈ searchableAttrs then setKey query kv.1 kv.2 else query)
          else query)
        q
      = q ++ fields.filter (fun kv => isStrCond kv.2 && decide (kv.1 ∈ searchableAttrs)) := by
  induction fields generalizing q with
  | nil => simp
  | cons kv rest ih =>
      simp only [List.map_cons, List.nodup_cons] at hnodup
      have hq' : ∀ k, k ∈ q.map Prod.fst → k ∉ rest.map Prod.fst := by
        intro k hk
        have := hq k hk
        simp only [List.map_cons, List.mem_cons] at this
        push_neg at this
        exact this.2
      by_cases hstr : isStrCond kv.2
      · by_cases hattr : kv.1 ∈ searchableAttrs
        · have hnotq : kv.1 ∉ q.map Prod.fst := by
            intro hmem
            have := hq kv.1 hmem
            simp at this
          have hset := setKey_of_not_mem_keys q kv.1 kv.2 hnotq
          have hq2 : ∀ k, k ∈ (q ++ [(kv.1, kv.2)]).map Prod.fst → k ∉ rest.map Prod.fst := by
            intro k hk
            rcases List.mem_map.mp hk with ⟨p, hp, hpk⟩
            rcases List.mem_append.mp hp with hpq | hpv
            · exact hq' k (hpk ▸ List.mem_map_of_mem Prod.fst hpq)
            · simp only [List.mem_singleton] at hpv
              subst hpv
              exact hpk ▸ hnodup.1
          simp only [List.foldl_cons, hstr, if_true, if_pos hattr, hset]
          rw [ih _ hnodup.2 hq2]
          simp [List.filter_cons, hstr, hattr]
        · simp only [List.foldl_cons, hstr, if_true, if_neg hattr]
          rw [ih q hnodup.2 hq']
          simp [List.filter_cons, hstr, hattr]
      · simp only [List.foldl_cons, Bool.not_eq_true] at hstr
        simp only [List.foldl_cons, hstr, Bool.false_eq_true, if_false]
        rw [ih q hnodup.2 hq']
        simp [List.filter_cons, hstr]

theorem getVal_eq_none_of_not_mem_keys (o : JsObj) (k : String)
    (h : k ∉ o.map Prod.fst) : getVal o k = none := by
  induction o with
  | nil => rfl
  | cons p rest ih =>
      obtain ⟨k', v'⟩ := p
      simp only [List.map_cons, List.mem_cons] at h
      push_neg at h
      simp only [getVal, if_neg (Ne.symm h.1)]
      exact ih h.2

theorem getVal_filter_iff (p : String × JsValue → Bool) (o : JsObj)
    (hnodup : (o.map Prod.fst).Nodup) (k : String) (c : JsValue) :
    getVal (o.filter p) k = some c ↔ getVal o k = some c ∧ p (k, c) = true := by
  induction o with
  | nil => simp [getVal]
  | cons kv rest ih =>
      obtain ⟨k', v'⟩ := kv
      simp only [List.map_cons, List.nodup_cons] at hnodup
      by_cases hk : k' = k
      · subst hk
        by_cases hp : p (k', v') = true
        · simp only [List.filter_cons, hp, if_true, getVal, if_pos rfl]
          constructor
          · rintro h
            exact ⟨h, by cases h; simpa using hp⟩
          · rintro ⟨h, _⟩
            exact h
        · have hnone : getVal (rest.filter p) k' = none := by
            apply getVal_eq_none_of_not_mem_keys
            intro hmem
            rcases List.mem_map.mp hmem with ⟨q, hq, hqk⟩
            exact hnodup.1 (hqk ▸ List.mem_map_of_mem Prod.fst (List.mem_of_mem_filter hq))
          simp only [List.filter_cons, hp, Bool.false_eq_true, if_false, getVal, if_pos rfl,
            hnone]
          constructor
          · intro h
            exact absurd h (by simp)
          · rintro ⟨h, hpc⟩
            cases h
            exact absurd hpc hp
      · simp only [List.filter_cons, getVal, if_neg hk]
        by_cases hp : p (k', v') = true
        · simp only [hp, if_true, getVal, if_neg hk]
          exact ih hnodup.2
        · simp only [hp, Bool.false_eq_true, if_false]
          exact ih hnodup.2

/-- C1: for every `where` object, the query built by `buildWhere` contains
exactly those keys of `where` whose condition is a string and whose name
is in the fixed allow-list `searchableAttrs` = {givenName, middleName,
surname, username, email}, each copied verbatim; every other key
(non-string condition, operator object, unsupported field) is absent from
the output.  `buildWhere` is a total function, so no key causes an
error. -/
theorem buildWhere_allowlist_exact (fields : List (String × JsValue))
    (hnodup : (fields.map Prod.fst).Nodup) (k : String) (c : JsValue) :
    getVal (buildWhere (.vObj fields)) k = some c ↔
      getVal fields k = some c ∧ isStrCond c = true ∧ k ∈ searchableAttrs := by
  have h0 := buildWhere_foldl_filter fields [] hnodup (by simp)
  simp only [buildWhere, h0, List.nil_append]
  rw [getVal_filter_iff _ fields hnodup k c]
  simp [and_assoc]

/-- Witness for C1 at the spec's scenario input
`{givenName: "Randall", customField: "x"}`: the built query keeps
`givenName` and drops `customField`. -/
theorem buildWhere_allowlist_exact_witness :
    (([("givenName", JsValue.vStr "Randall"), ("customField", JsValue.vStr "x")].map
        Prod.fst).Nodup
      ∧ (getVal (buildWhere (.vObj [("givenName", JsValue.vStr "Randall"),
            ("customField", JsValue.vStr "x")])) "givenName" = some (.vStr "Randall") ↔
          getVal [("givenName", JsValue.vStr "Randall"), ("customField", JsValue.vStr "x")]
              "givenName" = some (.vStr "Randall")
            ∧ isStrCond (.vStr "Randall") = true ∧ "givenName" ∈ searchableAttrs))
      ∧ getVal (buildWhere (.vObj [("givenName", JsValue.vStr "Randall"),
            ("customField", JsValue.vStr "x")])) "customField" = none := by
  refine ⟨⟨by decide, buildWhere_allowlist_exact _ (by decide) _ _⟩, ?_⟩
  rfl

/-- Characters allowed in a URL scheme, after Node's legacy protocol
pattern (letters, digits, `.`, `+`, `-`). -/
def isSchemeChar (c : Char) : Bool :=
  c.isAlphanum || c = '.' || c = '+' || c = '-'

/-- Longest prefix of a character list before the first occurrence of a
stop character (the rest is discarded). -/
def takeUntil (stops : List Char) : List Char → List Char
  | [] => []
  | c :: rest => if c ∈ stops then [] else c :: takeUntil stops rest

/-- Characters removed from either end of the input by JavaScript's
`String.prototype.trim`, which the legacy parser applies first: tab,
line feed, vertical tab, form feed, carriage return, space, no-break
space and the byte-order mark. -/
def isJsWhitespace (c : Char) : Bool :=
  c.toNat = 9 || c.toNat = 10 || c.toNat = 11 || c.toNat = 12 || c.toNat = 13
    || c.toNat = 32 || c.toNat = 160 || c.toNat = 65279

/-- Model of `String.prototype.trim`: whitespace removed from both
ends. -/
def jsTrim (s : List Char) : List Char :=
  ((s.dropWhile isJsWhitespace).reverse.dropWhile isJsWhitespace).reverse

/-- Characters the legacy parser auto-escapes in the path portion of a
host-ful URL (url.js's `autoEscape` array): the apostrophe (39), braces
(123, 125), pipe (124), backslash (92), caret (94), backtick (96), angle
brackets (60, 62), double quote (34), space (32), carriage return (13),
line feed (10) and tab (9). -/
def autoEscapeChars : List Char :=
  [Char.ofNat 39, Char.ofNat 123, Char.ofNat 125, Char.ofNat 124, Char.ofNat 92,
    Char.ofNat 94, Char.ofNat 96, Char.ofNat 60, Char.ofNat 62, Char.ofNat 34,
    Char.ofNat 32, Char.ofNat 13, Char.ofNat 10, Char.ofNat 9]

/-- Percent-encoding of one ASCII character, as produced by
`encodeURIComponent` on the auto-escaped characters: `%` followed by the
two uppercase hexadecimal digits of the code point. -/
def percentEscape (c : Char) : List Char :=
  let hexDigit (k : Nat) : Char := if k < 10 then Char.ofNat (48 + k) else Char.ofNat (55 + k)
  ['%', hexDigit (c.toNat / 16), hexDigit (c.toNat % 16)]

/-- The auto-escape pass of the legacy parser: each occurrence of an
auto-escaped character in the path portion is replaced by its
percent-encoding, every other character is kept. -/
def autoEscapeStr (s : List Char) : List Char :=
  s.flatMap (fun c => if c ∈ autoEscapeChars then percentEscape c else [c])

/-- Schemes in url.js's `slashedProtocol` table, for which a host-ful URL
with an empty path gets the default pathname `/`. -/
def isSlashedProtocol (scheme : List Char) : Bool :=
  let s := String.mk (scheme.map Char.toLower)
  s = "http" || s = "https" || s = "ftp" || s = "gopher" || s = "file"
    || s = "ws" || s = "wss"

/-- Model of Node's legacy `url.parse(href).pathname` on the hierarchical
locators this connector handles, following url.js's parse steps: the
input is trimmed; when the string starts with `scheme://`, the host runs
to the first `/`, `?` or `#`, the remainder up to the query or fragment
is the path with the parser's auto-escaping applied, and an empty path
falls back to `/` for the slashed protocols with a non-empty host
(`null`, i.e. `none`, otherwise); without a `scheme://` prefix the
pathname is the piece before the fragment and query (`none` when
empty). -/
def urlPathname (href : List Char) : Option (List Char) :=
  let t := jsTrim href
  let scheme := t.takeWhile isSchemeChar
  if scheme ≠ [] ∧ (t.drop scheme.length).take 3 = [':', '/', '/'] then
    let rest := t.drop (scheme.length + 3)
    let hostPart := rest.takeWhile (fun c => !(c = '/' || c = '?' || c = '#'))
    let afterHost := rest.dropWhile (fun c => !(c = '/' || c = '?' || c = '#'))
    let path := autoEscapeStr (takeUntil ['#', '?'] afterHost)
    if path = [] then
      if isSlashedProtocol scheme ∧ hostPart ≠ [] then some ['/'] else none
    else some path
  else
    let p := takeUntil ['?'] (takeUntil ['#'] t)
    if p = [] then none else some p

/-- Failure mode of the locator translator: the parsed URL carries no
path, so the source's `parsedUrl.pathname.split('/')` has nothing to
split (the spec's `MalformedLocatorError`). -/
inductive UrlErr where
  | malformedLocator
deriving DecidableEq

/-- Source `convertHrefToId` (`lib/stormpath.js`): parses the href as a
URL, splits the pathname on `/` and returns the final part
(`parts[parts.length - 1]`); when the parsed URL has no pathname the
split cannot be performed and the translation fails. -/
def convertHrefToId (href : String) : Except UrlErr String :=
  match urlPathname href.data with
  | none => .error .malformedLocator
  | some p => .ok (String.mk ((p.splitOn '/').getLastD []))

/-- Source `convertIdToHref` (`lib/stormpath.js`): the fixed account
locator template followed by `id.toString()`. -/
def convertIdToHref (id : JsValue) : String :=
  "https://api.stormpath.com/v1/accounts/" ++ jsToString id

/-- Path segments of a locator, following the spec's words: the non-empty
segments of the parsed URL's path (empty when the URL has no path at
all).  This is the spec-side reading of "path segments", used to compare
the spec's failure condition with the code's. -/
def specPathSegments (href : String) : List String :=
  match urlPathname href.data with
  | none => []
  | some p => ((p.splitOn '/').filter (· ≠ [])).map String.mk

/-- Text after the last `/` of a path (the whole path when it has no
`/`).  Spec-side description of what the final `split('/')` part is. -/
def textAfterLastSlash (p : List Char) : List Char :=
  (p.reverse.takeWhile (fun c => !(c = '/'))).reverse

theorem two_le_length_splitOnP {α : Type} (p : α → Bool) (l : List α) (a : α)
    (ha : a ∈ l) (hpa : p a = true) : 2 ≤ (l.splitOnP p).length := by
  induction l with
  | nil => cases ha
  | cons c tl ih =>
      rw [List.splitOnP_cons]
      by_cases hc : p c = true
      · simp only [hc, if_true, List.length_cons]
        have h1 : 0 < (tl.splitOnP p).length :=
          List.length_pos.mpr (List.splitOnP_ne_nil p tl)
        omega
      · rcases List.mem_cons.mp ha with rfl | htl
        · exact absurd hpa hc
        · simp only [hc, Bool.false_eq_true, if_false, List.length_modifyHead]
          exact ih htl

theorem getLastD_splitOnP_append {α : Type} (p : α → Bool) (sep : α) (hsep : p sep = true)
    (a b : List α) (hb : ∀ x ∈ b, p x = false) :
    ((a ++ sep :: b).splitOnP p).getLastD [] = b := by
  induction a with
  | nil =>
      rw [List.nil_append, List.splitOnP_cons, if_pos hsep,
        List.splitOnP_eq_single p b (by intro x hx; simp [hb x hx]),
        List.getLastD_cons]
      rfl
  | cons c a ih =>
      rw [List.cons_append, List.splitOnP_cons]
      by_cases hc : p c = true
      · rw [if_pos hc, List.getLastD_cons]
        exact ih
      · rw [if_neg hc]
        have h2 : 2 ≤ ((a ++ sep :: b).splitOnP p).length :=
          two_le_length_splitOnP p _ sep (by simp) hsep
        cases hl : (a ++ sep :: b).splitOnP p with
        | nil => rw [hl] at h2; simp at h2
        | cons s ss =>
            cases ss with
            | nil => rw [hl] at h2; simp at h2
            | cons s2 ss2 =>
                rw [hl] at ih
                rw [List.getLastD_cons, List.getLastD_cons] at ih
                rw [List.modifyHead_cons, List.getLastD_cons, List.getLastD_cons]
                exact ih

theorem takeWhile_eq_self_of_all {α : Type} (p : α → Bool) (l : List α)
    (h : ∀ x ∈ l, p x = true) : l.takeWhile p = l := by
  induction l with
  | nil => rfl
  | cons c tl ih =>
      rw [List.takeWhile_cons, if_pos (h c (by simp))]
      rw [ih (fun x hx => h x (by simp [hx]))]

theorem dropWhile_head_false {α : Type} (p : α → Bool) (l : List α) (c : α) (cs : List α)
    (h : l.dropWhile p = c :: cs) : p c = false := by
  induction l with
  | nil => cases h
  | cons x tl ih =>
      rw [List.dropWhile_cons] at h
      by_cases hx : p x = true
      · rw [if_pos hx] at h
        exact ih h
      · rw [if_neg hx] at h
        cases h
        exact Bool.not_eq_true _ ▸ (by simpa using hx)

theorem getLastD_splitOn_eq_textAfterLastSlash (p : List Char) :
    ((p.splitOn '/').getLastD []) = textAfterLastSlash p := by
  show ((p.splitOnP (· == '/')).getLastD []) = textAfterLastSlash p
  by_cases hm : '/' ∈ p
  · have hmr : '/' ∈ p.reverse := List.mem_reverse.mpr hm
    cases hrest : p.reverse.dropWhile (fun c => !(c = '/')) with
    | nil =>
        exfalso
        have hsplit := List.takeWhile_append_dropWhile (p := fun c => !(c = '/')) p.reverse
        rw [hrest, List.append_nil] at hsplit
        rw [← hsplit] at hmr
        have := List.mem_takeWhile_imp hmr
        simp at this
    | cons c cs =>
        have hcfalse := dropWhile_head_false _ _ _ _ hrest
        have hc : c = '/' := by simpa using hcfalse
        subst hc
        have hsplit : p.reverse.takeWhile (fun c => !(c = '/')) ++ '/' :: cs = p.reverse := by
          have := List.takeWhile_append_dropWhile (p := fun c => !(c = '/')) p.reverse
          rw [hrest] at this
          exact this
        have hp : p = cs.reverse ++ '/' :: (p.reverse.takeWhile (fun c => !(c = '/'))).reverse := by
          conv_lhs => rw [← List.reverse_reverse p, ← hsplit]
          simp [List.reverse_append]
        have hbno : ∀ x ∈ (p.reverse.takeWhile (fun c => !(c = '/'))).reverse,
            (x == '/') = false := by
          intro x hx
          have := List.mem_takeWhile_imp (List.mem_reverse.mp hx)
          simpa using this
        calc (p.splitOnP (· == '/')).getLastD []
            = (((cs.reverse ++ '/' :: (p.reverse.takeWhile (fun c => !(c = '/'))).reverse).splitOnP
                (· == '/')).getLastD []) := by rw [← hp]
          _ = (p.reverse.takeWhile (fun c => !(c = '/'))).reverse :=
              getLastD_splitOnP_append (· == '/') '/' (by simp) _ _ hbno
          _ = textAfterLastSlash p := rfl
  · rw [List.splitOnP_eq_single _ _ (by intro x hx; simp; rintro rfl; exact hm hx),
      List.getLastD_cons, List.getLastD_nil, textAfterLastSlash,
      takeWhile_eq_self_of_all _ _ (by
        intro x hx
        have : x ∈ p := List.mem_reverse.mp hx
        simp only [Bool.not_eq_true']
        simp only [decide_eq_false_iff_not]
        rintro rfl
        exact hm this),
      List.reverse_reverse]

/-- Counterexample to C9 as stated: the locator
`https://api.stormpath.com/` has no path segments (its parsed path is the
bare `/`), yet `convertHrefToId` does not fail — it returns the empty
string.  The failure condition of the source is "no path component at
all", not "no path segments". -/
theorem convertHrefToId_no_segments_counterexample :
    specPathSegments "https://api.stormpath.com/" = []
      ∧ convertHrefToId "https://api.stormpath.com/" = .ok "" :=
  ⟨rfl, rfl⟩

/-- C9 (amended): `convertHrefToId` parses the locator as a URL and, when
the parse yields a path, returns the text after the last `/` of that path
(the final path segment, empty when the path ends in `/`); it fails — and
with `MalformedLocatorError` only, there is no other failure — exactly
when the parsed locator has no path component at all. -/
theorem convertHrefToId_amended (href : String) :
    ((convertHrefToId href).isOk = false ↔ urlPathname href.data = none)
      ∧ ∀ p, urlPathname href.data = some p →
          convertHrefToId href = .ok (String.mk (textAfterLastSlash p)) := by
  constructor
  · cases h : urlPathname href.data with
    | none => simp [convertHrefToId, h, Except.isOk, Except.toBool]
    | some p => simp [convertHrefToId, h, Except.isOk, Except.toBool]
  · intro p hp
    simp only [convertHrefToId, hp]
    rw [getLastD_splitOn_eq_textAfterLastSlash]

/-- Witness for C9's amended theorem at a concrete account locator. -/
theorem convertHrefToId_amended_witness :
    urlPathname ("https://api.stormpath.com/v1/accounts/XYZ" : String).data
        = some "/v1/accounts/XYZ".data
      ∧ convertHrefToId "https://api.stormpath.com/v1/accounts/XYZ"
        = .ok (String.mk (textAfterLastSlash "/v1/accounts/XYZ".data)) :=
  ⟨by decide,
    (convertHrefToId_amended "https://api.stormpath.com/v1/accounts/XYZ").2 _ (by decide)⟩

/-- Model of a Stormpath Account object as the connector sees it: the
resource locator `href`, an `id` property (usually `undefined`; set by
`updateOrCreate` before saving), the standard fields, the write-only
`password`, and the custom-data bag (`none` when the account was fetched
without `expand: customData`, `some` with the expanded key/value
entries when it was). -/
structure Account where
  href : String
  id : JsValue := .vUndefined
  givenName : JsValue := .vUndefined
  surname : JsValue := .vUndefined
  middleName : JsValue := .vUndefined
  email : JsValue := .vUndefined
  password : JsValue := .vUndefined
  customData : Option JsObj := none

/-- Source `updateAccount` (`lib/stormpath.js`): the fixed list of
standard fields merged by name. -/
def standardFields : List String := ["givenName", "surname", "middleName", "email"]

/-- Step of the source's `for (var key in data)` loop: keys other than
`password`, `id` and the standard fields are written into the custom-data
bag (`account.customData[key] = data[key]`). -/
def cdStep (cd : JsObj) (kv : String × JsValue) : JsObj :=
  if kv.1 ≠ "password" ∧ kv.1 ≠ "id" ∧ kv.1 ∉ standardFields then setKey cd kv.1 kv.2
  else cd

/-- Source `updateAccount` (`lib/stormpath.js`): merges the given data
into the account.  Each standard field is set to
`data[field] || account[field]`; `password` is copied only when truthy
(`if (data.password)`); every remaining own key of `data` is written into
`account.customData`.  The source requires customData to have been
expanded (its line 63 note); an account without expanded custom data is
outside the function's contract and is modelled by leaving `customData`
absent. -/
def updateAccount (account : Account) (data : JsObj) : Account :=
  let a1 : Account :=
    { account with
      givenName := jsOr (jsGet data "givenName") account.givenName
      surname := jsOr (jsGet data "surname") account.surname
      middleName := jsOr (jsGet data "middleName") account.middleName
      email := jsOr (jsGet data "email") account.email }
  let a2 : Account :=
    if truthy (jsGet data "password") then { a1 with password := jsGet data "password" }
    else a1
  { a2 with customData := a2.customData.map (fun cd => data.foldl cdStep cd) }

theorem getVal_setKey_self (o : JsObj) (k : String) (v : JsValue) :
    getVal (setKey o k v) k = some v := by
  induction o with
  | nil => simp [setKey, getVal]
  | cons p rest ih =>
      obtain ⟨k', v'⟩ := p
      by_cases hk : k' = k
      · subst hk
        simp [setKey, getVal]
      · simp only [setKey, if_neg hk, getVal, if_neg hk]
        exact ih

theorem getVal_setKey_ne (o : JsObj) (k k' : String) (v : JsValue) (h : k' ≠ k) :
    getVal (setKey o k' v) k = getVal o k := by
  induction o with
  | nil => simp [setKey, getVal, if_neg h]
  | cons p rest ih =>
      obtain ⟨k1, v1⟩ := p
      by_cases hk : k1 = k'
      · subst hk
        simp only [setKey, if_pos rfl, getVal, if_neg h]
      · simp only [setKey, if_neg hk, getVal]
        by_cases hk1 : k1 = k
        · rw [if_pos hk1, if_pos hk1]
        · rw [if_neg hk1, if_neg hk1]
          exact ih

theorem foldl_cdStep_untouched (data : JsObj) (cd : JsObj) (k : String)
    (h : ∀ kv ∈ data, kv.1 ≠ k) :
    getVal (data.foldl cdStep cd) k = getVal cd k := by
  induction data generalizing cd with
  | nil => rfl
  | cons kv rest ih =>
      rw [List.foldl_cons]
      rw [ih _ (fun kv' hkv' => h kv' (by simp [hkv']))]
      unfold cdStep
      by_cases hc : kv.1 ≠ "password" ∧ kv.1 ≠ "id" ∧ kv.1 ∉ standardFields
      · rw [if_pos hc, getVal_setKey_ne _ _ _ _ (h kv (by simp))]
      · rw [if_neg hc]

theorem foldl_cdStep_writes (data : JsObj) (cd : JsObj) (k : String) (v : JsValue)
    (hget : getVal data k = some v) (hnodup : (data.map Prod.fst).Nodup)
    (h1 : k ≠ "password") (h2 : k ≠ "id") (h3 : k ∉ standardFields) :
    getVal (data.foldl cdStep cd) k = some v := by
  induction data generalizing cd with
  | nil => cases hget
  | cons kv rest ih =>
      obtain ⟨k1, v1⟩ := kv
      simp only [List.map_cons, List.nodup_cons] at hnodup
      by_cases hk : k1 = k
      · subst hk
        rw [getVal, if_pos rfl] at hget
        injection hget with hv
        subst hv
        rw [List.foldl_cons]
        have hstep : cdStep cd (k1, v1) = setKey cd k1 v1 := by
          unfold cdStep
          rw [if_pos ⟨h1, h2, h3⟩]
        rw [hstep, foldl_cdStep_untouched rest _ k1 (fun kv' hkv' => by
          intro he
          exact hnodup.1 (he ▸ List.mem_map_of_mem Prod.fst hkv'))]
        exact getVal_setKey_self cd k1 v1
      · rw [getVal, if_neg hk] at hget
        rw [List.foldl_cons]
        exact ih _ hget hnodup.2

theorem getVal_isSome_of_mem (o : JsObj) (kv : String × JsValue) (h : kv ∈ o) :
    getVal o kv.1 ≠ none := by
  induction o with
  | nil => cases h
  | cons p rest ih =>
      obtain ⟨a, b⟩ := p
      rcases List.mem_cons.mp h with rfl | hm
      · simp [getVal]
      · by_cases hk : a = kv.1
        · simp [getVal, hk]
        · simp only [getVal, if_neg hk]
          exact ih hm

/-- C4: the merge overlay of `updateAccount` leaves each standard field
(`givenName`, `surname`, `middleName`, `email`) at the account's existing
value whenever the incoming record's value for it is absent or falsy,
copies `password` only when present (an absent password leaves the stored
one unchanged), writes every remaining key of the record other than `id`
and `password` into the account's customData mapping, and leaves every
customData key not named in the incoming record unchanged. -/
theorem updateAccount_merge_overlay (account : Account) (cd : JsObj) (data : JsObj)
    (hcd : account.customData = some cd)
    (hnodup : (data.map Prod.fst).Nodup) :
    (¬ truthy (jsGet data "givenName") →
        (updateAccount account data).givenName = account.givenName)
    ∧ (¬ truthy (jsGet data "surname") →
        (updateAccount account data).surname = account.surname)
    ∧ (¬ truthy (jsGet data "middleName") →
        (updateAccount account data).middleName = account.middleName)
    ∧ (¬ truthy (jsGet data "email") →
        (updateAccount account data).email = account.email)
    ∧ (getVal data "password" = none →
        (updateAccount account data).password = account.password)
    ∧ (∀ k v, getVal data k = some v → k ≠ "id" → k ≠ "password" → k ∉ standardFields →
        getVal ((updateAccount account data).customData.getD []) k = some v)
    ∧ (∀ k, getVal data k = none →
        getVal ((updateAccount account data).customData.getD []) k = getVal cd k) := by
  have hpw : ∀ (a : Account), (if truthy (jsGet data "password")
      then { a with password := jsGet data "password" } else a).customData = a.customData := by
    intro a
    by_cases h : truthy (jsGet data "password") <;> simp [h]
  refine ⟨?_, ?_, ?_, ?_, ?_, ?_, ?_⟩
  · intro h
    by_cases hp : truthy (jsGet data "password") <;> simp [updateAccount, jsOr, h, hp]
  · intro h
    by_cases hp : truthy (jsGet data "password") <;> simp [updateAccount, jsOr, h, hp]
  · intro h
    by_cases hp : truthy (jsGet data "password") <;> simp [updateAccount, jsOr, h, hp]
  · intro h
    by_cases hp : truthy (jsGet data "password") <;> simp [updateAccount, jsOr, h, hp]
  · intro h
    have : truthy (jsGet data "password") = false := by
      simp [jsGet, h, truthy]
    simp [updateAccount, this]
  · intro k v hget hid hpw' hstd
    simp only [updateAccount, hcd, apply_ite Account.customData, ite_self,
      Option.map_some, Option.getD_some]
    exact foldl_cdStep_writes data cd k v hget hnodup hpw' hid hstd
  · intro k hget
    simp only [updateAccount, hcd, apply_ite Account.customData, ite_self,
      Option.map_some, Option.getD_some]
    refine foldl_cdStep_untouched data cd k ?_
    intro kv hkv he
    exact getVal_isSome_of_mem data kv hkv (he ▸ hget)

/-- Witness for C4: merging `{email, color}` into an account with custom
data `{color, age}` rewrites `color` and leaves `age` unchanged. -/
theorem updateAccount_merge_overlay_witness :
    (({ href := "h", givenName := JsValue.vStr "John",
        customData := some [("color", JsValue.vStr "red"), ("age", JsValue.vNum 30)] } :
          Account).customData
        = some [("color", JsValue.vStr "red"), ("age", JsValue.vNum 30)])
      ∧ (([("email", JsValue.vStr "n@x.com"), ("color", JsValue.vStr "blue")].map
            (Prod.fst (α := String) (β := JsValue))).Nodup)
      ∧ getVal ((updateAccount
            { href := "h", givenName := JsValue.vStr "John",
              customData := some [("color", JsValue.vStr "red"), ("age", JsValue.vNum 30)] }
            [("email", JsValue.vStr "n@x.com"),
              ("color", JsValue.vStr "blue")]).customData.getD [])
          "color" = some (JsValue.vStr "blue")
      ∧ getVal ((updateAccount
            { href := "h", givenName := JsValue.vStr "John",
              customData := some [("color", JsValue.vStr "red"), ("age", JsValue.vNum 30)] }
            [("email", JsValue.vStr "n@x.com"),
              ("color", JsValue.vStr "blue")]).customData.getD [])
          "age" = getVal [("color", JsValue.vStr "red"), ("age", JsValue.vNum 30)] "age" :=
  ⟨rfl, by decide,
    (updateAccount_merge_overlay _ _ _ rfl (by decide)).2.2.2.2.2.1 "color"
      (JsValue.vStr "blue") rfl (by decide) (by decide) (by decide),
    (updateAccount_merge_overlay _ _ _ rfl (by decide)).2.2.2.2.2.2 "age" rfl⟩

/-- Error object delivered by the Stormpath client to a callback: only
its `status` field is inspected by the connector (`err.status >= 500`). -/
structure JsErr where
  status : Int
deriving DecidableEq

/-- Remote requests a connector operation can issue, recorded as a trace
in dispatch order. -/
inductive RemoteOp where
  | createAcct (data : JsObj)
  | getAcct (href : String)
  | getApp (href : String)
  | searchAccts (query : String)
  | queryAccts (query : JsObj)
  | saveAcct (a : Account)
  | saveCustomData (a : Account)
  | deleteAcct (href : String)

/-- Source `Stormpath.prototype.exists` (`lib/stormpath.js`): the account
fetch outcome is supplied as an oracle value (the source passes only the
callback to `this.client.getAccount`, so the id never reaches the remote
store).  A 5xx error propagates; in every other case the callback
receives `false ? err : true` — a conditional whose scrutinee is the
literal `false`, which therefore always evaluates to `true`. -/
def existsCheck (fetch : Except JsErr Account) : Except JsErr Bool :=
  match fetch with
  | .error e => if 500 ≤ e.status then .error e else .ok true
  | .ok _ => .ok true

/-- C2 (divergence evidence): `exists` propagates 5xx failures and
acknowledges `true` on success, but on a non-5xx failure (here a 404,
the "account absent" case) it also answers `true` — never `false` —
because `false ? err : true` is constantly `true`.  The spec and the
repository's own test (`assert(!exists)` for a missing user) require
`false` there. -/
theorem existsCheck_non5xx_returns_true :
    existsCheck (.error { status := 404 }) = .ok true
    ∧ existsCheck (.ok { href := "h" }) = .ok true
    ∧ existsCheck (.error { status := 500 }) = .error { status := 500 } :=
  ⟨rfl, rfl, rfl⟩

/-- Flat Record shape handed back to the ORM layer. -/
structure RecordJson where
  id : String
  givenName : JsValue
  surname : JsValue
  email : JsValue
  customData : Option JsObj

/-- Source `convertAccountToJson` (`lib/stormpath.js`): projects the
account to the flat Record shape — the id converted from
`account.id || account.href`, the standard fields, and `customData`
included exactly when the account carries it (an account fetched without
expansion has none).  A malformed locator makes the id conversion throw,
modelled as the error case. -/
def convertAccountToJson (account : Account) : Except UrlErr RecordJson :=
  match convertHrefToId (jsToString (jsOr account.id (.vStr account.href))) with
  | .error u => .error u
  | .ok i =>
      .ok { id := i, givenName := account.givenName, surname := account.surname,
            email := account.email, customData := account.customData }

/-- Remote store contents: accounts keyed by href. -/
def setAccount : List (String × Account) → String → Account → List (String × Account)
  | [], h, a => [(h, a)]
  | (h', a') :: rest, h, a =>
      if h' = h then (h', a) :: rest else (h', a') :: setAccount rest h a

/-- Effect of one remote operation on the store: reads leave it
untouched, saves replace the account at its href, deletes remove it;
creation allocates a locator chosen by the remote store and is outside
this deterministic interpretation (`none`). -/
def applyOp (store : List (String × Account)) : RemoteOp → Option (List (String × Account))
  | .createAcct _ => none
  | .getAcct _ => some store
  | .getApp _ => some store
  | .searchAccts _ => some store
  | .queryAccts _ => some store
  | .saveAcct a => some (setAccount store a.href a)
  | .saveCustomData a => some (setAccount store a.href a)
  | .deleteAcct h => some (store.filter (fun p => p.1 ≠ h))

/-- Effect of a trace of remote operations on the store, in order. -/
def applyOps (store : List (String × Account)) : List RemoteOp → Option (List (String × Account))
  | [] => some store
  | op :: rest =>
      match applyOp store op with
      | none => none
      | some store' => applyOps store' rest

/-- Source `Stormpath.prototype.save` (`lib/stormpath.js`): fetches the
account at the record id's locator and, when the fetch succeeds,
acknowledges with `true`; no other remote call is made. -/
def saveOp (getAccount : String → Except JsErr Account) (data : JsObj) :
    List RemoteOp × Except JsErr Bool :=
  let href := convertIdToHref (jsGet data "id")
  ([.getAcct href],
    match getAccount href with
    | .error e => .error e
    | .ok _ => .ok true)

/-- C7: for every record carrying an id, `save` only re-fetches the
corresponding remote account and acknowledges with `true` on success; it
issues no write, so interpreting its trace against any store leaves every
stored account unchanged. -/
theorem save_only_refetches (getAccount : String → Except JsErr Account) (data : JsObj)
    (store : List (String × Account)) :
    (∀ op ∈ (saveOp getAccount data).1, ∃ h, op = .getAcct h)
    ∧ applyOps store (saveOp getAccount data).1 = some store
    ∧ (∀ a, getAccount (convertIdToHref (jsGet data "id")) = .ok a →
        (saveOp getAccount data).2 = .ok true) := by
  refine ⟨?_, rfl, ?_⟩
  · intro op hop
    simp only [saveOp, List.mem_singleton] at hop
    exact ⟨_, hop⟩
  · intro a ha
    simp [saveOp, ha]

/-- Witness for C7 at a concrete record and store. -/
theorem save_only_refetches_witness :
    (∀ op ∈ (saveOp (fun _ => .ok { href := "h" }) [("id", JsValue.vStr "A1")]).1,
        ∃ h, op = .getAcct h)
      ∧ applyOps [("h", ({ href := "h" } : Account))]
          (saveOp (fun _ => .ok { href := "h" }) [("id", JsValue.vStr "A1")]).1
          = some [("h", ({ href := "h" } : Account))]
      ∧ ((fun (_ : String) => (.ok { href := "h" } : Except JsErr Account))
            (convertIdToHref (jsGet [("id", JsValue.vStr "A1")] "id")) = .ok { href := "h" }
          ∧ (saveOp (fun _ => .ok { href := "h" }) [("id", JsValue.vStr "A1")]).2 = .ok true) :=
  ⟨(save_only_refetches _ _ []).1, (save_only_refetches _ _ _).2.1,
    rfl, (save_only_refetches (fun _ => .ok { href := "h" }) _ []).2.2 { href := "h" } rfl⟩

/-- Configuration consumed by the connector's bootstrap. -/
structure ConnSettings where
  apiKeyId : String
  apiKeySecret : String
  applicationHref : String

/-- Stormpath client handle, derived from the configured credentials. -/
structure SpClient where
  apiKeyId : String
  apiKeySecret : String
deriving DecidableEq

/-- Resolved application-scope handle. -/
structure SpApplication where
  href : String
deriving DecidableEq

/-- Mutable connector state: `self.client` and `self.application`. -/
structure ConnState where
  client : Option SpClient := none
  application : Option SpApplication := none
deriving DecidableEq

/-- Source `Stormpath.prototype.connect` (`lib/stormpath.js`): when
`self.application` is already set, the callback resolves on the next tick
with the cached `self.client` and nothing else happens; otherwise a fresh
client is built from the configured api key (written to `self.client`
before the lookup), the application scope is resolved remotely, and on
success `self.application` is written. -/
def connect (settings : ConnSettings) (getApplication : String → Except JsErr SpApplication)
    (st : ConnState) : ConnState × List RemoteOp × Except JsErr (Option SpClient) :=
  match st.application with
  | some _ => (st, [], .ok st.client)
  | none =>
      let client : SpClient :=
        { apiKeyId := settings.apiKeyId, apiKeySecret := settings.apiKeySecret }
      match getApplication settings.applicationHref with
      | .error e =>
          ({ st with client := some client }, [.getApp settings.applicationHref], .error e)
      | .ok app =>
          ({ client := some client, application := some app },
            [.getApp settings.applicationHref], .ok (some client))

/-- C8: `connect` is idempotent — once the application handle is set,
every subsequent call resolves with the cached client, performs no remote
lookup and modifies neither the stored client nor the application handle;
and the handle is written at the first successful connect. -/
theorem connect_idempotent (settings : ConnSettings)
    (getApplication : String → Except JsErr SpApplication) (st : ConnState) :
    (∀ app, st.application = some app →
        connect settings getApplication st = (st, [], .ok st.client))
    ∧ (∀ app, st.application = none →
        getApplication settings.applicationHref = .ok app →
        (connect settings getApplication st).1.application = some app
        ∧ (connect settings getApplication st).2.2
            = .ok ((connect settings getApplication st).1.client)) := by
  constructor
  · intro app happ
    simp [connect, happ]
  · intro app happ hok
    simp [connect, happ, hok]

/-- Witness for C8: with the handle already cached, a further `connect`
returns the state unchanged; a first connect writes the handle. -/
theorem connect_idempotent_witness :
    (({ client := some { apiKeyId := "k", apiKeySecret := "s" },
        application := some { href := "app" } } : ConnState).application
          = some { href := "app" }
      ∧ connect { apiKeyId := "k", apiKeySecret := "s", applicationHref := "app" }
          (fun _ => .ok { href := "app" })
          { client := some { apiKeyId := "k", apiKeySecret := "s" },
            application := some { href := "app" } }
        = ({ client := some { apiKeyId := "k", apiKeySecret := "s" },
             application := some { href := "app" } },
            [], .ok (some { apiKeyId := "k", apiKeySecret := "s" })))
    ∧ (({} : ConnState).application = none
      ∧ (fun (_ : String) => (.ok { href := "app" } : Except JsErr SpApplication)) "app"
          = .ok { href := "app" }
      ∧ (connect { apiKeyId := "k", apiKeySecret := "s", applicationHref := "app" }
          (fun _ => .ok { href := "app" }) {}).1.application = some { href := "app" }
      ∧ (connect { apiKeyId := "k", apiKeySecret := "s", applicationHref := "app" }
          (fun _ => .ok { href := "app" }) {}).2.2
          = .ok ((connect { apiKeyId := "k", apiKeySecret := "s", applicationHref := "app" }
              (fun _ => .ok { href := "app" }) {}).1.client)) :=
  ⟨⟨rfl, (connect_idempotent _ _ _).1 { href := "app" } rfl⟩,
    rfl, rfl,
    (connect_idempotent { apiKeyId := "k", apiKeySecret := "s", applicationHref := "app" }
      (fun _ => .ok { href := "app" }) {}).2 { href := "app" } rfl rfl⟩

/-- Failure of one batch-create item: either the remote store's error, or
a thrown conversion failure on the created account's href. -/
inductive CreateErr where
  | remote (e : JsErr)
  | badHref (u : UrlErr)
deriving DecidableEq

/-- Per-item step of the source's batch create: dispatch `createAccount`
and convert the created account's href to an id
(`convertHrefToId(account.href)`). -/
def createOne (createAccount : JsObj → Except JsErr Account) (item : JsObj) :
    Except CreateErr String :=
  match createAccount item with
  | .error e => .error (.remote e)
  | .ok account =>
      match convertHrefToId account.href with
      | .error u => .error (.badHref u)
      | .ok i => .ok i

/-- Result aggregation of the source's `async.map`: ids in input order
when every item succeeds, the failing item's error otherwise. -/
def createAll (createAccount : JsObj → Except JsErr Account) :
    List JsObj → Except CreateErr (List String)
  | [] => .ok []
  | d :: rest =>
      match createOne createAccount d with
      | .error e => .error e
      | .ok i =>
          match createAll createAccount rest with
          | .error e => .error e
          | .ok is => .ok (i :: is)

/-- Source array branch of `Stormpath.prototype.create`
(`lib/stormpath.js`): `async.map` dispatches a `createAccount` request
for every item up front (unbounded parallel fan-out), so the trace holds
one creation per input item whatever the outcomes; the callback receives
the ids in input order, or the failing error. -/
def createBatch (createAccount : JsObj → Except JsErr Account) (data : List JsObj) :
    List RemoteOp × Except CreateErr (List String) :=
  (data.map RemoteOp.createAcct, createAll createAccount data)

/-- C5: when every remote creation succeeds, the batch create returns the
ids extracted from the created accounts, in input order and of the same
length as the input; when any creation fails, the whole batch fails with
that error; in both cases the trace holds exactly one creation request
per input item — issued siblings are never rolled back (no delete is ever
traced). -/
theorem create_batch_order_and_failure (createAccount : JsObj → Except JsErr Account)
    (data : List JsObj) :
    (createBatch createAccount data).1 = data.map RemoteOp.createAcct
    ∧ (∀ f : JsObj → String, (∀ d ∈ data, createOne createAccount d = .ok (f d)) →
        (createBatch createAccount data).2 = .ok (data.map f)
          ∧ (data.map f).length = data.length)
    ∧ (∀ e, (∃ d ∈ data, createOne createAccount d = .error e) →
        (∀ d ∈ data, createOne createAccount d = .error e
          ∨ ∃ i, createOne createAccount d = .ok i) →
        (createBatch createAccount data).2 = .error e) := by
  refine ⟨rfl, ?_, ?_⟩
  · intro f hf
    refine ⟨?_, by simp⟩
    show createAll createAccount data = .ok (data.map f)
    induction data with
    | nil => rfl
    | cons d rest ih =>
        rw [createAll, hf d (by simp), List.map_cons,
          ih (fun d' hd' => hf d' (by simp [hd']))]
  · intro e hex hall
    show createAll createAccount data = .error e
    induction data with
    | nil =>
        rcases hex with ⟨d, hd, _⟩
        cases hd
    | cons d rest ih =>
        rcases hall d (by simp) with hde | ⟨i, hdi⟩
        · rw [createAll, hde]
        · rw [createAll, hdi]
          have hrest : ∃ d' ∈ rest, createOne createAccount d' = .error e := by
            rcases hex with ⟨d', hd', he'⟩
            rcases List.mem_cons.mp hd' with rfl | hm
            · rw [hdi] at he'
              cases he'
            · exact ⟨d', hm, he'⟩
          rw [ih hrest (fun d' hd' => hall d' (by simp [hd']))]

/-- Witness for C5: a two-item batch against a store that answers with a
fixed well-formed account succeeds with both ids in order. -/
theorem create_batch_order_and_failure_witness :
    (∀ d ∈ [[("email", JsValue.vStr "a@x.com")], [("email", JsValue.vStr "b@x.com")]],
        createOne (fun _ => .ok { href := "https://api.stormpath.com/v1/accounts/A1" }) d
          = .ok ((fun _ => "A1") d))
    ∧ (createBatch (fun _ => .ok { href := "https://api.stormpath.com/v1/accounts/A1" })
          [[("email", JsValue.vStr "a@x.com")], [("email", JsValue.vStr "b@x.com")]]).2
        = .ok ["A1", "A1"] :=
  ⟨fun _ _ => rfl,
    ((create_batch_order_and_failure
        (fun _ => .ok { href := "https://api.stormpath.com/v1/accounts/A1" })
        [[("email", JsValue.vStr "a@x.com")], [("email", JsValue.vStr "b@x.com")]]).2.1
      (fun _ => "A1") (fun _ _ => rfl)).1⟩

/-- Loopback filter object as read by `all`: the `where`, `include` and
`limit` properties (absent properties are `none`; `where` and `include`
are Lean keywords, hence the field names). -/
structure Filter where
  whereCond : Option JsValue := none
  includeRel : Option JsValue := none
  limit : Option JsValue := none

/-- Expand string built from `filter.include` (`lib/stormpath.js` lines
439-447): an array is joined with commas (`filter.include.join()`), a
string is used as is, anything else leaves the expand string empty. -/
def buildExpand (inc : JsValue) : String :=
  match inc with
  | .vArr elems => String.intercalate "," (elems.map jsToString)
  | .vStr s => s
  | _ => ""

/-- Query object built by `Stormpath.prototype.all` before fetching: the
`where` translation when `filter.where` is truthy, plus the `expand`
property when `filter.include` is truthy (`query.expand = expand ?
expand : undefined` stores `undefined` for an empty expand string). -/
def allQuery (filter : Filter) : JsObj :=
  let query : JsObj :=
    match filter.whereCond with
    | some w => if truthy w then buildWhere w else []
    | none => []
  match filter.includeRel with
  | some inc =>
      if truthy inc then
        let expand := buildExpand inc
        setKey query "expand" (if expand.isEmpty then .vUndefined else .vStr expand)
      else query
  | none => query

/-- Client-side limit computed by `Stormpath.prototype.all`: starts at 0,
set from `filter.limit` only when that property is truthy and a number
(`if (filter.limit) { if (typeof filter.limit === 'number') ... }`). -/
def computeLimit (filter : Filter) : Int :=
  match filter.limit with
  | some v =>
      if truthy v then
        match v with
        | .vNum n => n
        | _ => 0
      else 0
  | none => 0

/-- The `accounts.each` accumulation loop of `Stormpath.prototype.all`:
each account is projected and pushed while the limit is unreached
(`!limit || accs.length < limit`); a projection failure would be thrown
out of the loop, modelled as the error case. -/
def eachConvert (limit : Int) : List Account → List RecordJson → Except UrlErr (List RecordJson)
  | [], accs => .ok accs
  | account :: rest, accs =>
      if limit = 0 ∨ (accs.length : Int) < limit then
        match convertAccountToJson account with
        | .error u => .error u
        | .ok r => eachConvert limit rest (accs ++ [r])
      else eachConvert limit rest accs

/-- Source `Stormpath.prototype.all` (`lib/stormpath.js`): builds the
remote query from the filter, fetches the full account enumeration for
it (`getAccounts` is the remote store's answer; the source reads the
result without checking the fetch error, so the model covers the success
path), and accumulates the projected records client-side under the
computed limit. -/
def allOp (getAccounts : JsObj → List Account) (filter : Filter) :
    List RemoteOp × Except UrlErr (List RecordJson) :=
  let query := allQuery filter
  ([.queryAccts query], eachConvert (computeLimit filter) (getAccounts query) [])

theorem eachConvert_spec (f : Account → RecordJson) (limit : Int) (l : List Account)
    (accs : List RecordJson)
    (hf : ∀ a ∈ l, convertAccountToJson a = .ok (f a)) :
    (limit = 0 → eachConvert limit l accs = .ok (accs ++ l.map f))
    ∧ (0 < limit →
        eachConvert limit l accs = .ok (accs ++ (l.map f).take (limit.toNat - accs.length))) := by
  induction l generalizing accs with
  | nil =>
      refine ⟨fun _ => by simp [eachConvert], fun _ => by simp [eachConvert]⟩
  | cons a rest ih =>
      constructor
      · intro h0
        subst h0
        rw [eachConvert, if_pos (Or.inl rfl)]
        simp only [hf a (by simp)]
        rw [(ih _ (fun a' ha' => hf a' (by simp [ha']))).1 rfl]
        simp
      · intro hpos
        rw [eachConvert]
        by_cases hlt : (accs.length : Int) < limit
        · rw [if_pos (Or.inr hlt)]
          simp only [hf a (by simp)]
          rw [(ih _ (fun a' ha' => hf a' (by simp [ha']))).2 hpos]
          have harith : limit.toNat - accs.length = (limit.toNat - (accs.length + 1)) + 1 := by
            omega
          rw [List.map_cons, harith, List.take_succ_cons]
          simp
        · rw [if_neg (by
            intro hc
            rcases hc with hc | hc
            · omega
            · exact hlt hc)]
          rw [(ih _ (fun a' ha' => hf a' (by simp [ha']))).2 hpos]
          have harith : limit.toNat - accs.length = 0 := by omega
          rw [harith, List.take_zero, List.take_zero]

/-- C6: with a positive numeric `limit` n, `all` returns the first n
projected records of the remote enumeration, in order (hence at most n
records); with no numeric limit it returns every record projected, in
order.  Truncation is client-side: the query sent to the remote store is
`allQuery filter`, which carries no limit, and the whole enumeration is
consumed. -/
theorem all_limit_truncation (getAccounts : JsObj → List Account) (filter : Filter)
    (f : Account → RecordJson)
    (hf : ∀ a ∈ getAccounts (allQuery filter), convertAccountToJson a = .ok (f a)) :
    (∀ n : Int, filter.limit = some (.vNum n) → 0 < n →
        (allOp getAccounts filter).2
            = .ok (((getAccounts (allQuery filter)).map f).take n.toNat)
          ∧ ∀ l, (allOp getAccounts filter).2 = .ok l → l.length ≤ n.toNat)
    ∧ ((∀ n : Int, filter.limit ≠ some (.vNum n)) →
        (allOp getAccounts filter).2 = .ok ((getAccounts (allQuery filter)).map f)) := by
  constructor
  · intro n hlim hpos
    have hcl : computeLimit filter = n := by
      have ht : truthy (.vNum n) = true := by
        simp [truthy]
        omega
      simp only [computeLimit, hlim]
      rw [if_pos ht]
    have := (eachConvert_spec f (computeLimit filter) (getAccounts (allQuery filter)) [] hf).2
      (by rw [hcl]; exact hpos)
    constructor
    · show eachConvert (computeLimit filter) (getAccounts (allQuery filter)) [] = _
      rw [this]
      simp [hcl]
    · intro l hl
      have h2 : (allOp getAccounts filter).2
          = .ok (((getAccounts (allQuery filter)).map f).take n.toNat) := by
        show eachConvert (computeLimit filter) (getAccounts (allQuery filter)) [] = _
        rw [this]
        simp [hcl]
      rw [h2] at hl
      injection hl with hl'
      subst hl'
      simp
  · intro hnot
    have hcl : computeLimit filter = 0 := by
      rw [computeLimit]
      cases hl : filter.limit with
      | none => rfl
      | some v =>
          cases v with
          | vNum n => exact absurd hl (hnot n)
          | vStr s => by_cases h : truthy (.vStr s) <;> simp [h]
          | vBool b => by_cases h : truthy (.vBool b) <;> simp [h]
          | vNull => simp [truthy]
          | vUndefined => simp [truthy]
          | vObj fs => simp [truthy]
          | vArr es => simp [truthy]
    have := (eachConvert_spec f (computeLimit filter) (getAccounts (allQuery filter)) [] hf).1 hcl
    show eachConvert (computeLimit filter) (getAccounts (allQuery filter)) [] = _
    rw [this]
    simp

/-- Test fixture for the operation witnesses: an account at the canonical
locator. -/
def sampleAccount : Account :=
  { href := "https://api.stormpath.com/v1/accounts/A1" }

/-- Test fixture for the operation witnesses: the Record projection of
`sampleAccount`. -/
def sampleRecord : RecordJson :=
  { id := "A1", givenName := .vUndefined, surname := .vUndefined,
    email := .vUndefined, customData := none }

/-- Witness for C6 at a two-account enumeration with `limit: 1`. -/
theorem all_limit_truncation_witness :
    (∀ a ∈ (fun (_ : JsObj) => [sampleAccount, sampleAccount])
        (allQuery { limit := some (.vNum 1) }),
        convertAccountToJson a = .ok ((fun _ => sampleRecord) a))
    ∧ ({ limit := some (.vNum 1) } : Filter).limit = some (.vNum 1)
    ∧ (0 : Int) < 1
    ∧ (allOp (fun _ => [sampleAccount, sampleAccount]) { limit := some (.vNum 1) }).2
        = .ok ((((fun (_ : JsObj) => [sampleAccount, sampleAccount])
            (allQuery { limit := some (.vNum 1) })).map
              (fun _ => sampleRecord)).take (Int.toNat 1)) :=
  ⟨by
      intro a ha
      simp only [List.mem_cons, List.not_mem_nil, or_false] at ha
      rcases ha with rfl | rfl <;> rfl,
    rfl, by decide,
    ((all_limit_truncation (fun _ => [sampleAccount, sampleAccount])
        { limit := some (.vNum 1) } (fun _ => sampleRecord)
        (by
          intro a ha
          simp only [List.mem_cons, List.not_mem_nil, or_false] at ha
          rcases ha with rfl | rfl <;> rfl)).1 1 rfl (by decide)).1⟩

/-- Errors `updateOrCreate` can hand to its callback: a remote error, the
source's literal `new Error('Oops! Something bad happened.')`, or a
thrown locator-conversion failure. -/
inductive UocErr where
  | remote (e : JsErr)
  | oops
  | badHref (u : UrlErr)

/-- One invocation of the `updateOrCreate` caller's callback. -/
inductive UocCb where
  | err (e : UocErr)
  | ok (r : RecordJson)

/-- Remote collaborators consulted by `updateOrCreate`, as outcome
oracles. -/
structure UocOracle where
  createAccount : JsObj → Except JsErr Account
  getAccount : String → Except JsErr Account
  getAccounts : String → Except JsErr (List Account)
  saveAccount : Account → Option JsErr
  saveCustomData : Account → Option JsErr

/-- Callback delivered by a `createAccount` round trip: the remote error,
or the created account projected to a Record. -/
def createCb (o : UocOracle) (data : JsObj) : UocCb :=
  match o.createAccount data with
  | .error e => .err (.remote e)
  | .ok account =>
      match convertAccountToJson account with
      | .error u => .err (.badHref u)
      | .ok r => .ok r

/-- Outcome of the source's `async.parallel` pair in `updateOrCreate`:
the account save, then (when requested) the custom-data save; the first
error wins, `none` means both acknowledged. -/
def uocSaveResult (o : UocOracle) (account : Account) (saveCustom : Bool) : Option JsErr :=
  match o.saveAccount account with
  | some e => some e
  | none => if saveCustom then o.saveCustomData account else none

/-- The callback produced after a merge-and-save: the first save error,
or the merged account projected to a Record. -/
def mergedCb (o : UocOracle) (merged : Account) (saveCustom : Bool) : UocCb :=
  match uocSaveResult o merged saveCustom with
  | some e => .err (.remote e)
  | none =>
      match convertAccountToJson merged with
      | .error u => .err (.badHref u)
      | .ok r => .ok r

/-- Id branch of `Stormpath.prototype.updateOrCreate` (`data.id` truthy):
fetch the account with expanded custom data; a 5xx fetch error
propagates; any other fetch failure leaves `account` undefined, so the
record is created instead; a fetched account is merged (`updateAccount`
plus `account.id = data.id`), then saved — the custom-data save is
dispatched only when the serialized custom data holds more than one key
(its reserved `href` entry counts for one, hence the `+ 1`). -/
def uocIdBranch (o : UocOracle) (data : JsObj) : List RemoteOp × List UocCb :=
  let href := convertIdToHref (jsGet data "id")
  match o.getAccount href with
  | .error e =>
      if 500 ≤ e.status then ([.getAcct href], [.err (.remote e)])
      else ([.getAcct href, .createAcct data], [createCb o data])
  | .ok account =>
      let merged : Account := { updateAccount account data with id := jsGet data "id" }
      let saveCustom : Bool := decide (1 < (merged.customData.getD []).length + 1)
      (([.getAcct href, .saveAcct merged]
          ++ (if saveCustom then [.saveCustomData merged] else [])),
        [mergedCb o merged saveCustom])

/-- String-equality test of the source's disambiguation loop
(`acc.email === data.email.toLowerCase()`). -/
def emailMatches (emailLower : String) (acc : Account) : Bool :=
  match acc.email with
  | .vStr s => s = emailLower
  | _ => false

/-- Email branch of `Stormpath.prototype.updateOrCreate` (`data.email`
truthy, no truthy id): search by the lower-cased email; a 5xx search
error propagates, while after a non-5xx error the source dereferences the
undefined result list and throws, so its callback is never invoked (the
empty callback list); otherwise the last exactly-matching account is
merged and saved (account save and custom-data save both dispatched), or
the record is created when no account matches. -/
def uocEmailBranch (o : UocOracle) (data : JsObj) : List RemoteOp × List UocCb :=
  let emailLower := (jsToString (jsGet data "email")).toLower
  match o.getAccounts emailLower with
  | .error e =>
      if 500 ≤ e.status then ([.searchAccts emailLower], [.err (.remote e)])
      else ([.searchAccts emailLower], [])
  | .ok accounts =>
      match (accounts.filter (emailMatches emailLower)).getLast? with
      | some account =>
          let merged := updateAccount account data
          ([.searchAccts emailLower, .saveAcct merged, .saveCustomData merged],
            [mergedCb o merged true])
      | none =>
          ([.searchAccts emailLower, .createAcct data], [createCb o data])

/-- Source `Stormpath.prototype.updateOrCreate` (`lib/stormpath.js`).
When the record carries neither a truthy id nor a truthy email, the
source first dispatches `createAccount` (the guard block at its lines
275-281 has no `return`), then falls through the `if`/`else if` chain
into the final `else` and invokes the callback synchronously with the
generic `Error('Oops! Something bad happened.')`; the creation's own
callback fires afterwards, so the caller's callback runs a second
time — the callback list records both invocations in order. -/
def updateOrCreate (o : UocOracle) (data : JsObj) : List RemoteOp × List UocCb :=
  if truthy (jsGet data "id") then uocIdBranch o data
  else if truthy (jsGet data "email") then uocEmailBranch o data
  else ([.createAcct data], [.err .oops, createCb o data])

/-- C3 (divergence evidence): on a record with neither id nor email,
`updateOrCreate` issues one account-creation request and invokes its
callback twice — first with the generic error, then with the creation
outcome — where the claim requires a single ValidationError callback and
no creation request. -/
theorem updateOrCreate_no_id_no_email_double_callback (o : UocOracle) (data : JsObj)
    (hid : ¬ truthy (jsGet data "id")) (hemail : ¬ truthy (jsGet data "email")) :
    (updateOrCreate o data).1 = [.createAcct data]
    ∧ (updateOrCreate o data).2 = [.err .oops, createCb o data]
    ∧ ((updateOrCreate o data).2).length = 2 := by
  simp [updateOrCreate, hid, hemail]

/-- Test fixture: an oracle whose creation succeeds with
`sampleAccount` and whose other collaborators answer trivially. -/
def sampleOracle : UocOracle :=
  { createAccount := fun _ => .ok sampleAccount
    getAccount := fun _ => .error { status := 404 }
    getAccounts := fun _ => .ok []
    saveAccount := fun _ => none
    saveCustomData := fun _ => none }

/-- Witness for C3's divergence theorem at the record
`{givenName: "Randall"}`. -/
theorem updateOrCreate_no_id_no_email_double_callback_witness :
    (¬ truthy (jsGet [("givenName", JsValue.vStr "Randall")] "id"))
    ∧ (¬ truthy (jsGet [("givenName", JsValue.vStr "Randall")] "email"))
    ∧ ((updateOrCreate sampleOracle [("givenName", JsValue.vStr "Randall")]).1
        = [.createAcct [("givenName", JsValue.vStr "Randall")]]
      ∧ (updateOrCreate sampleOracle [("givenName", JsValue.vStr "Randall")]).2
        = [.err .oops, createCb sampleOracle [("givenName", JsValue.vStr "Randall")]]
      ∧ ((updateOrCreate sampleOracle [("givenName", JsValue.vStr "Randall")]).2).length = 2) :=
  ⟨by decide, by decide,
    updateOrCreate_no_id_no_email_double_callback sampleOracle
      [("givenName", JsValue.vStr "Randall")] (by decide) (by decide)⟩

end StormpathConnector
